import Mathlib

/-!
Verification of the Asylo enclave thread-donation scheduler and the remote
assertion generator enclave sealing utilities.

The thread manager implementation file is not part of the sources at hand
(only the header `asylo/platform/posix/threading/thread_manager.h` is), so
its semantics is modelled from the specification, as a small transition
system over registry states: each event is one atomic interaction point of
CreateThread (submit), StartThread (claim and run) and JoinThread (join).

The sealing utilities are embedded directly from
`asylo/identity/sgx/remote_assertion_generator_enclave_util.cc`; the
cryptographic sealer, protobuf serialization and DER key codec are external
collaborators of that file and are modelled from the specification as
faithful encode/decode pairs.
-/

namespace Asylo

/-! ### Association-list helpers (flat_hash_map and the unit table) -/

/-- Lookup of the first binding of a key in an association list. -/
def lookupK {α : Type} : List (Nat × α) → Nat → Option α
  | [], _ => none
  | (k, v) :: rest, k' => if k' = k then some v else lookupK rest k'

/-- Replace the value bound to a key, leaving other bindings unchanged. -/
def setK {α : Type} : List (Nat × α) → Nat → α → List (Nat × α)
  | [], _, _ => []
  | (k0, v0) :: rest, k, v =>
      if k0 = k then (k, v) :: setK rest k v else (k0, v0) :: setK rest k v

/-- Remove every binding of a key from an association list. -/
def eraseK {α : Type} : List (Nat × α) → Nat → List (Nat × α)
  | [], _ => []
  | (k, v) :: rest, k' => if k = k' then eraseK rest k' else (k, v) :: eraseK rest k'

theorem lookupK_setK_self {α : Type} (l : List (Nat × α)) (k : Nat) (v : α) :
    lookupK (setK l k v) k = (lookupK l k).map (fun _ => v) := by
  induction l with
  | nil => rfl
  | cons p rest ih =>
    obtain ⟨k0, v0⟩ := p
    by_cases h : k0 = k
    · subst h
      simp [setK, lookupK]
    · have h' : ¬ k = k0 := fun hkk => h hkk.symm
      simp [setK, lookupK, h, h', ih]

theorem lookupK_setK_ne {α : Type} (l : List (Nat × α)) (k k' : Nat) (v : α)
    (h : k' ≠ k) : lookupK (setK l k v) k' = lookupK l k' := by
  induction l with
  | nil => rfl
  | cons p rest ih =>
    obtain ⟨k0, v0⟩ := p
    by_cases hk : k0 = k
    · subst hk
      simp [setK, lookupK, h, ih]
    · by_cases hk' : k' = k0 <;> simp [setK, lookupK, hk, hk', ih]

theorem lookupK_eraseK_self {α : Type} (l : List (Nat × α)) (k : Nat) :
    lookupK (eraseK l k) k = none := by
  induction l with
  | nil => rfl
  | cons p rest ih =>
    obtain ⟨k0, v0⟩ := p
    by_cases hk : k0 = k
    · simp [eraseK, hk, ih]
    · have h' : ¬ k = k0 := fun hkk => hk hkk.symm
      simp [eraseK, hk, lookupK, h', ih]

theorem lookupK_eraseK_ne {α : Type} (l : List (Nat × α)) (k k' : Nat)
    (h : k' ≠ k) : lookupK (eraseK l k) k' = lookupK l k' := by
  induction l with
  | nil => rfl
  | cons p rest ih =>
    obtain ⟨k0, v0⟩ := p
    by_cases hk : k0 = k
    · subst hk
      simp [eraseK, lookupK, h, ih]
    · by_cases hk' : k' = k0 <;> simp [eraseK, lookupK, hk, hk', ih]

theorem nodup_append_singleton {l : List Nat} {a : Nat}
    (h : l.Nodup) (ha : a ∉ l) : (l ++ [a]).Nodup := by
  induction l with
  | nil => simp
  | cons x rest ih =>
    simp only [List.mem_cons, not_or] at ha
    simp only [List.cons_append, List.nodup_cons] at *
    refine ⟨?_, ih h.2 ha.2⟩
    intro hx
    rcases List.mem_append.mp hx with hx | hx
    · exact h.1 hx
    · simp at hx
      exact ha.1 hx.symm

/-! ### Logical Thread

Modelled from the spec: a Logical Thread is an argument-bound callable, a
result slot, an identity slot and a four-state lifecycle.  The opaque
callable is represented by the (pointer-sized) value it will produce. -/

/-- The four lifecycle states of `ThreadManager::Thread::ThreadState`. -/
inductive ThreadState
  | QUEUED
  | RUNNING
  | DONE
  | JOINED
deriving DecidableEq

/-- Position of a state along the forward-only lifecycle. -/
def ThreadState.rank : ThreadState → Nat
  | .QUEUED => 0
  | .RUNNING => 1
  | .DONE => 2
  | .JOINED => 3

/-- One Logical Thread (`ThreadManager::Thread`).  `start_routine` is the
value the callable produces, `ret` the result slot, `thread_id` the bound
vehicle identity. -/
structure Thread where
  start_routine : Int
  ret : Option Int
  thread_id : Option Nat
  state : ThreadState
deriving DecidableEq

/-- Modelled from the spec: `UpdateThreadState` enforces the forward-only,
no-skip discipline of the state machine; an out-of-order transition is a
fatal assertion failure, represented by `none`. -/
def UpdateThreadState (t : Thread) (s : ThreadState) : Option Thread :=
  if s.rank = t.state.rank + 1 then some { t with state := s } else none

/-- Modelled from the spec: `Thread::Run` moves the thread into RUNNING,
runs the callable, stores its result and moves the thread to DONE.  A second
invocation, or an invocation of a thread that is not QUEUED, is a fatal
assertion failure (`none`), not a recoverable error. -/
def Thread.Run (t : Thread) : Option Thread :=
  match UpdateThreadState t .RUNNING with
  | none => none
  | some t1 => UpdateThreadState { t1 with ret := some t1.start_routine } .DONE

/-! ### Thread Registry

Modelled from the spec: the registry owns the FIFO `queued_threads_` of
pending units and the map `threads_` from bound identity to claimed unit.
`units` is the table of every Logical Thread ever created, keyed by a unit
identifier.  The fields `submitted`, `claimed`, `returned`, `issued` and
`joinedIds` are history variables recording, in order, the units submitted,
the units claimed, the units whose CreateThread call has returned, the
vehicle identities bound by claims, and the identities already joined. -/

structure Registry where
  queued_threads : List Nat
  threads : List (Nat × Nat)
  units : List (Nat × Thread)
  submitted : List Nat
  claimed : List Nat
  returned : List Nat
  issued : List Nat
  joinedIds : List Nat
deriving DecidableEq

/-- The initial, empty registry. -/
def Registry.init : Registry :=
  ⟨[], [], [], [], [], [], [], []⟩

/-- Modelled from the spec: the enqueue phase of `CreateThread` (submit,
spec 4.2 steps 1 and 2): construct a new QUEUED unit and append it to the
pending FIFO.  `none` means the unit identifier is already in use, so this
is not a valid occurrence. -/
def CreateThreadEnqueue (r : Registry) (uid : Nat) (value : Int) : Option Registry :=
  match lookupK r.units uid with
  | some _ => none
  | none =>
      some { r with
        units := (uid, ⟨value, none, none, .QUEUED⟩) :: r.units
        queued_threads := r.queued_threads ++ [uid]
        submitted := r.submitted ++ [uid] }

/-- Result of `StartThread`: either the updated registry or a fatal abort
of the whole process. -/
inductive StartResult
  | ok (r : Registry)
  | abortProcess
deriving DecidableEq

/-- Modelled from the spec: the claim phase of `StartThread` (claim and
run, spec 4.3 steps 1 to 3), invoked by a donated vehicle with identity
`tid`: pop the front of the pending FIFO, bind `tid`, move the unit to
RUNNING and insert it into the active map.  If the pending queue is empty
the process aborts — per the header comment, "If no start_routine is
present this function will abort()".  An inconsistent registry also
aborts, as a broken invariant is fatal. -/
def StartThread (r : Registry) (tid : Nat) : StartResult :=
  match r.queued_threads with
  | [] => .abortProcess
  | uid :: rest =>
      match lookupK r.units uid with
      | none => .abortProcess
      | some t =>
          match UpdateThreadState { t with thread_id := some tid } .RUNNING with
          | none => .abortProcess
          | some t1 =>
              .ok { r with
                queued_threads := rest
                units := setK r.units uid t1
                threads := (tid, uid) :: r.threads
                claimed := r.claimed ++ [uid]
                issued := r.issued ++ [tid] }

/-- Error returned by `JoinThread` when the identity is unknown. -/
inductive JoinError
  | NoSuchIdentity
deriving DecidableEq

/-- Modelled from the spec: the lookup phase of `JoinThread` (join, spec
4.4 step 1), via `GetThread`: an identity absent from the active map fails
immediately with `NoSuchIdentity`; otherwise the claimed unit is found. -/
def JoinThreadLookup (r : Registry) (tid : Nat) : Except JoinError Nat :=
  match lookupK r.threads tid with
  | none => .error .NoSuchIdentity
  | some uid => .ok uid

/-- The atomic interaction points of the three registry operations.  A
trace of events covers every interleaving of concurrent CreateThread,
StartThread and JoinThread calls. -/
inductive Event
  | submit (uid : Nat) (value : Int)
  | claim (tid : Nat)
  | finish (tid : Nat)
  | submitReturn (uid : Nat)
  | join (tid : Nat) (value : Int)
deriving DecidableEq

/-- Modelled from the spec: one atomic step of the registry.  `none` means
the event is not enabled in this state (for blocking operations, that the
caller is still blocked; for the claim of an empty queue, that the
surrounding runtime never donates a vehicle without an outstanding
submission).
  * `submit uid value`: CreateThread enqueues a fresh unit (4.2 steps 1-2).
  * `claim tid`: StartThread pops the FIFO front, binds the fresh vehicle
    identity `tid`, moves the unit to RUNNING and inserts it into the
    active map (4.3 steps 1-3).
  * `finish tid`: the callable of the unit bound to `tid` returns `value`;
    its result is stored and it moves to DONE (4.3 steps 4-5).
  * `submitReturn uid`: CreateThread returns, which it may do only once its
    unit has left QUEUED (4.2 steps 4-5).
  * `join tid value`: JoinThread completes, returning `value`: the unit
    must be DONE, its CreateThread call must have returned (the joiner
    holds the identity), the unit moves to JOINED and leaves the active
    map (4.4 steps 1-5). -/
def step (r : Registry) : Event → Option Registry
  | .submit uid value => CreateThreadEnqueue r uid value
  | .claim tid =>
      if tid ∈ r.issued then none
      else
        match StartThread r tid with
        | .abortProcess => none
        | .ok r1 => some r1
  | .finish tid =>
      match lookupK r.threads tid with
      | none => none
      | some uid =>
          match lookupK r.units uid with
          | none => none
          | some t =>
              match UpdateThreadState { t with ret := some t.start_routine } .DONE with
              | none => none
              | some t1 => some { r with units := setK r.units uid t1 }
  | .submitReturn uid =>
      match lookupK r.units uid with
      | none => none
      | some t =>
          if t.state = .QUEUED then none
          else if uid ∈ r.returned then none
          else some { r with returned := r.returned ++ [uid] }
  | .join tid value =>
      match lookupK r.threads tid with
      | none => none
      | some uid =>
          match lookupK r.units uid with
          | none => none
          | some t =>
              if uid ∈ r.returned then
                if t.ret = some value then
                  match UpdateThreadState t .JOINED with
                  | none => none
                  | some t1 =>
                      some { r with
                        units := setK r.units uid t1
                        threads := eraseK r.threads tid
                        joinedIds := r.joinedIds ++ [tid] }
                else none
              else none

/-- Registry states reachable by valid traces from the empty registry. -/
inductive Reachable : Registry → Prop
  | init : Reachable Registry.init
  | step {r : Registry} {e : Event} {r' : Registry} :
      Reachable r → step r e = some r' → Reachable r'

/-! ### Characterization of the atomic steps -/

theorem UpdateThreadState_eq_some {t : Thread} {s : ThreadState} {t' : Thread} :
    UpdateThreadState t s = some t' ↔
      s.rank = t.state.rank + 1 ∧ t' = { t with state := s } := by
  unfold UpdateThreadState
  split <;> simp_all [eq_comm]

theorem rank_eq_one_iff (s : ThreadState) : s.rank = 1 ↔ s = .RUNNING := by
  cases s <;> simp [ThreadState.rank]

theorem rank_eq_two_iff (s : ThreadState) : s.rank = 2 ↔ s = .DONE := by
  cases s <;> simp [ThreadState.rank]

theorem rank_eq_three_iff (s : ThreadState) : s.rank = 3 ↔ s = .JOINED := by
  cases s <;> simp [ThreadState.rank]

theorem rank_eq_zero_iff (s : ThreadState) : s.rank = 0 ↔ s = .QUEUED := by
  cases s <;> simp [ThreadState.rank]

theorem step_submit_some {r r' : Registry} {uid : Nat} {v : Int}
    (h : step r (.submit uid v) = some r') :
    lookupK r.units uid = none ∧
      r' = { r with
        units := (uid, ⟨v, none, none, .QUEUED⟩) :: r.units
        queued_threads := r.queued_threads ++ [uid]
        submitted := r.submitted ++ [uid] } := by
  simp only [step, CreateThreadEnqueue] at h
  split at h
  · cases h
  case _ hu => exact ⟨hu, (Option.some.injEq _ _ ▸ h).symm⟩

theorem StartThread_eq_ok {r : Registry} {tid : Nat} {r1 : Registry}
    (h : StartThread r tid = .ok r1) :
    ∃ uid rest t, r.queued_threads = uid :: rest ∧
      lookupK r.units uid = some t ∧ t.state = .QUEUED ∧
      r1 = { r with
        queued_threads := rest
        units := setK r.units uid { t with thread_id := some tid, state := .RUNNING }
        threads := (tid, uid) :: r.threads
        claimed := r.claimed ++ [uid]
        issued := r.issued ++ [tid] } := by
  unfold StartThread at h
  split at h
  · cases h
  case _ uid rest hq =>
    split at h
    · cases h
    case _ t hu =>
      split at h
      · cases h
      case _ t1 hup =>
        obtain ⟨hrank, ht1⟩ := UpdateThreadState_eq_some.mp hup
        have hst : t.state = .QUEUED := by
          have h0 : t.state.rank = 0 := by
            simpa [ThreadState.rank] using hrank
          exact (rank_eq_zero_iff _).mp h0
        refine ⟨uid, rest, t, hq, hu, hst, ?_⟩
        cases h
        rw [ht1]

theorem step_claim_some {r r' : Registry} {tid : Nat}
    (h : step r (.claim tid) = some r') :
    tid ∉ r.issued ∧
      ∃ uid rest t, r.queued_threads = uid :: rest ∧
        lookupK r.units uid = some t ∧ t.state = .QUEUED ∧
        r' = { r with
          queued_threads := rest
          units := setK r.units uid { t with thread_id := some tid, state := .RUNNING }
          threads := (tid, uid) :: r.threads
          claimed := r.claimed ++ [uid]
          issued := r.issued ++ [tid] } := by
  simp only [step] at h
  by_cases hi : tid ∈ r.issued
  · rw [if_pos hi] at h; cases h
  · rw [if_neg hi] at h
    refine ⟨hi, ?_⟩
    split at h
    · cases h
    case _ r1 hs =>
      obtain ⟨uid, rest, t, h1, h2, h3, h4⟩ := StartThread_eq_ok hs
      exact ⟨uid, rest, t, h1, h2, h3, by rw [← h4]; exact (Option.some.injEq _ _ ▸ h).symm⟩

theorem step_finish_some {r r' : Registry} {tid : Nat}
    (h : step r (.finish tid) = some r') :
    ∃ uid t, lookupK r.threads tid = some uid ∧
      lookupK r.units uid = some t ∧ t.state = .RUNNING ∧
      r' = { r with
        units := setK r.units uid
          { t with ret := some t.start_routine, state := .DONE } } := by
  simp only [step] at h
  split at h
  · cases h
  case _ uid ht =>
    split at h
    · cases h
    case _ t hu =>
      split at h
      · cases h
      case _ t1 hup =>
        obtain ⟨hrank, ht1⟩ := UpdateThreadState_eq_some.mp hup
        have hst : t.state = .RUNNING := by
          have h1 : t.state.rank = 1 := by
            simpa [ThreadState.rank] using hrank
          exact (rank_eq_one_iff _).mp h1
        refine ⟨uid, t, ht, hu, hst, ?_⟩
        cases h
        rw [ht1]

theorem step_submitReturn_some {r r' : Registry} {uid : Nat}
    (h : step r (.submitReturn uid) = some r') :
    ∃ t, lookupK r.units uid = some t ∧ t.state ≠ .QUEUED ∧ uid ∉ r.returned ∧
      r' = { r with returned := r.returned ++ [uid] } := by
  simp only [step] at h
  split at h
  · cases h
  case _ t hu =>
    by_cases hq : t.state = .QUEUED
    · rw [if_pos hq] at h; cases h
    · rw [if_neg hq] at h
      by_cases hr : uid ∈ r.returned
      · rw [if_pos hr] at h; cases h
      · rw [if_neg hr] at h
        exact ⟨t, hu, hq, hr, (Option.some.injEq _ _ ▸ h).symm⟩

theorem step_join_some {r r' : Registry} {tid : Nat} {v : Int}
    (h : step r (.join tid v) = some r') :
    ∃ uid t, lookupK r.threads tid = some uid ∧
      lookupK r.units uid = some t ∧ uid ∈ r.returned ∧
      t.ret = some v ∧ t.state = .DONE ∧
      r' = { r with
        units := setK r.units uid { t with state := .JOINED }
        threads := eraseK r.threads tid
        joinedIds := r.joinedIds ++ [tid] } := by
  simp only [step] at h
  split at h
  · cases h
  case _ uid ht =>
    split at h
    · cases h
    case _ t hu =>
      by_cases hr : uid ∈ r.returned
      · rw [if_pos hr] at h
        by_cases hv : t.ret = some v
        · rw [if_pos hv] at h
          split at h
          · cases h
          case _ t1 hup =>
            obtain ⟨hrank, ht1⟩ := UpdateThreadState_eq_some.mp hup
            have hst : t.state = .DONE := by
              have h2 : t.state.rank = 2 := by
                simpa [ThreadState.rank] using hrank
              exact (rank_eq_two_iff _).mp h2
            refine ⟨uid, t, ht, hu, hr, hv, hst, ?_⟩
            cases h
            rw [ht1]
        · rw [if_neg hv] at h; cases h
      · rw [if_neg hr] at h; cases h

/-! ### The registry invariant -/

/-- The registry invariant, maintained by every atomic step: the submission
history is the claim history followed by the pending FIFO; pending units are
QUEUED and unbound; the active map holds exactly the RUNNING and DONE units,
keyed by their bound identity; a DONE unit holds the value its callable
produced; JOINED units were returned from submit; an identity is active
exactly when it was issued and not yet joined. -/
structure Inv (r : Registry) : Prop where
  fifo : r.submitted = r.claimed ++ r.queued_threads
  queued_nodup : r.queued_threads.Nodup
  queued_state : ∀ uid ∈ r.queued_threads, ∃ t, lookupK r.units uid = some t ∧
    t.state = .QUEUED ∧ t.thread_id = none
  active_maps : ∀ tid uid, lookupK r.threads tid = some uid → ∃ t,
    lookupK r.units uid = some t ∧ t.thread_id = some tid ∧
    (t.state = .RUNNING ∨ t.state = .DONE)
  live_active : ∀ uid t, lookupK r.units uid = some t →
    (t.state = .RUNNING ∨ t.state = .DONE) →
    ∃ tid, t.thread_id = some tid ∧ lookupK r.threads tid = some uid
  done_ret : ∀ uid t, lookupK r.units uid = some t → t.state = .DONE →
    t.ret = some t.start_routine
  returned_started : ∀ uid ∈ r.returned, ∃ t, lookupK r.units uid = some t ∧
    t.state ≠ .QUEUED
  joined_returned : ∀ uid t, lookupK r.units uid = some t → t.state = .JOINED →
    uid ∈ r.returned
  issued_iff : ∀ tid, (lookupK r.threads tid).isSome ↔
    (tid ∈ r.issued ∧ tid ∉ r.joinedIds)
  joined_issued : ∀ tid ∈ r.joinedIds, tid ∈ r.issued

theorem Inv_init : Inv Registry.init := by
  refine ⟨?_, ?_, ?_, ?_, ?_, ?_, ?_, ?_, ?_, ?_⟩ <;>
    simp [Registry.init, lookupK]

theorem Inv_step {r r' : Registry} {e : Event} (inv : Inv r)
    (h : step r e = some r') : Inv r' := by
  cases e with
  | submit uid v =>
    obtain ⟨hu, rfl⟩ := step_submit_some h
    refine ⟨?_, ?_, ?_, ?_, ?_, ?_, ?_, ?_, ?_, ?_⟩
    · simp [inv.fifo, List.append_assoc]
    · refine nodup_append_singleton inv.queued_nodup ?_
      intro hm
      obtain ⟨t, ht, -, -⟩ := inv.queued_state uid hm
      rw [hu] at ht; cases ht
    · intro uid' hm
      rcases List.mem_append.mp hm with hm | hm
      · obtain ⟨t, ht, hst, hid⟩ := inv.queued_state uid' hm
        have hne : uid' ≠ uid := by
          intro e; rw [e, hu] at ht; cases ht
        exact ⟨t, by simp [lookupK, hne, ht], hst, hid⟩
      · simp at hm
        subst hm
        exact ⟨⟨v, none, none, .QUEUED⟩, by simp [lookupK], rfl, rfl⟩
    · intro tid uid' hl
      obtain ⟨t, ht, hid, hst⟩ := inv.active_maps tid uid' hl
      have hne : uid' ≠ uid := by
        intro e; rw [e, hu] at ht; cases ht
      exact ⟨t, by simp [lookupK, hne, ht], hid, hst⟩
    · intro uid' t hl hst
      by_cases hne : uid' = uid
      · subst hne
        simp [lookupK] at hl
        rcases hst with hst | hst <;> rw [← hl] at hst <;> cases hst
      · simp [lookupK, hne] at hl
        exact inv.live_active uid' t hl hst
    · intro uid' t hl hst
      by_cases hne : uid' = uid
      · subst hne
        simp [lookupK] at hl
        rw [← hl] at hst; cases hst
      · simp [lookupK, hne] at hl
        exact inv.done_ret uid' t hl hst
    · intro uid' hm
      obtain ⟨t, ht, hst⟩ := inv.returned_started uid' hm
      have hne : uid' ≠ uid := by
        intro e; rw [e, hu] at ht; cases ht
      exact ⟨t, by simp [lookupK, hne, ht], hst⟩
    · intro uid' t hl hst
      by_cases hne : uid' = uid
      · subst hne
        simp [lookupK] at hl
        rw [← hl] at hst; cases hst
      · simp [lookupK, hne] at hl
        exact inv.joined_returned uid' t hl hst
    · exact inv.issued_iff
    · exact inv.joined_issued
  | claim tid =>
    obtain ⟨hi, uid, rest, t, hq, hu, hst, rfl⟩ := step_claim_some h
    have hTidNone : lookupK r.threads tid = none := by
      cases hl : lookupK r.threads tid with
      | none => rfl
      | some u =>
        exact absurd (((inv.issued_iff tid).mp (by simp [hl])).1) hi
    have hUidNotRest : uid ∉ rest := by
      have hn := inv.queued_nodup
      rw [hq] at hn
      exact (List.nodup_cons.mp hn).1
    refine ⟨?_, ?_, ?_, ?_, ?_, ?_, ?_, ?_, ?_, ?_⟩
    · rw [inv.fifo, hq]; simp
    · have hn := inv.queued_nodup
      rw [hq] at hn
      exact (List.nodup_cons.mp hn).2
    · intro uid' hm
      have hne : uid' ≠ uid := fun e => hUidNotRest (e ▸ hm)
      obtain ⟨t', ht', hst', hid'⟩ := inv.queued_state uid'
        (by rw [hq]; exact List.mem_cons_of_mem _ hm)
      exact ⟨t', by rw [lookupK_setK_ne _ _ _ _ hne]; exact ht', hst', hid'⟩
    · intro tid' uid' hl
      by_cases htid : tid' = tid
      · have hl' : uid = uid' := by
          rw [htid] at hl
          simpa [lookupK] using hl
        refine ⟨{ t with thread_id := some tid, state := .RUNNING }, ?_, ?_, Or.inl rfl⟩
        · rw [← hl', lookupK_setK_self, hu]; rfl
        · rw [htid]
      · simp [lookupK, htid] at hl
        obtain ⟨t', ht', hid', hst'⟩ := inv.active_maps tid' uid' hl
        have hne : uid' ≠ uid := by
          intro e
          rw [e, hu] at ht'
          rcases hst' with hs | hs <;>
            rw [← Option.some.inj ht', hst] at hs <;> cases hs
        exact ⟨t', by rw [lookupK_setK_ne _ _ _ _ hne]; exact ht', hid', hst'⟩
    · intro uid' t' hl' hst'
      by_cases huid : uid' = uid
      · rw [huid, lookupK_setK_self, hu] at hl'
        have ht1 : t' = { t with thread_id := some tid, state := .RUNNING } :=
          (Option.some.inj hl').symm
        subst ht1
        refine ⟨tid, rfl, ?_⟩
        rw [huid]
        simp [lookupK]
      · rw [lookupK_setK_ne _ _ _ _ huid] at hl'
        obtain ⟨tid'', hid'', hl''⟩ := inv.live_active uid' t' hl' hst'
        have hne'' : tid'' ≠ tid := by
          intro e; rw [e, hTidNone] at hl''; cases hl''
        exact ⟨tid'', hid'', by simp [lookupK, hne'', hl'']⟩
    · intro uid' t' hl' hst'
      by_cases huid : uid' = uid
      · rw [huid, lookupK_setK_self, hu] at hl'
        have ht1 : t' = { t with thread_id := some tid, state := .RUNNING } :=
          (Option.some.inj hl').symm
        subst ht1
        simp at hst'
      · rw [lookupK_setK_ne _ _ _ _ huid] at hl'
        exact inv.done_ret uid' t' hl' hst'
    · intro uid' hm
      obtain ⟨t', ht', hst'⟩ := inv.returned_started uid' hm
      have hne : uid' ≠ uid := by
        intro e
        rw [e, hu] at ht'
        exact hst' (by rw [← Option.some.inj ht']; exact hst)
      exact ⟨t', by rw [lookupK_setK_ne _ _ _ _ hne]; exact ht', hst'⟩
    · intro uid' t' hl' hst'
      by_cases huid : uid' = uid
      · rw [huid, lookupK_setK_self, hu] at hl'
        have ht1 : t' = { t with thread_id := some tid, state := .RUNNING } :=
          (Option.some.inj hl').symm
        subst ht1
        simp at hst'
      · rw [lookupK_setK_ne _ _ _ _ huid] at hl'
        exact inv.joined_returned uid' t' hl' hst'
    · intro tid'
      by_cases htid : tid' = tid
      · constructor
        · intro _
          refine ⟨by rw [htid]; simp, fun hj => hi ?_⟩
          have hji := inv.joined_issued tid' hj
          rwa [htid] at hji
        · intro _
          rw [htid]
          simp [lookupK]
      · have hiff := inv.issued_iff tid'
        constructor
        · intro hsome
          have hl : (lookupK r.threads tid').isSome := by
            simpa [lookupK, htid] using hsome
          obtain ⟨h1, h2⟩ := hiff.mp hl
          exact ⟨List.mem_append_left _ h1, h2⟩
        · intro hmem
          obtain ⟨h1, h2⟩ := hmem
          have h1' : tid' ∈ r.issued := by
            rcases List.mem_append.mp h1 with hx | hx
            · exact hx
            · simp at hx; exact absurd hx htid
          have hs := hiff.mpr ⟨h1', h2⟩
          simpa [lookupK, htid] using hs
    · intro tid' hm
      exact List.mem_append_left _ (inv.joined_issued tid' hm)
  | finish tid =>
    obtain ⟨uid, t, ht, hu, hst, rfl⟩ := step_finish_some h
    refine ⟨inv.fifo, inv.queued_nodup, ?_, ?_, ?_, ?_, ?_, ?_,
      inv.issued_iff, inv.joined_issued⟩
    · intro uid' hm
      obtain ⟨t', ht', hst', hid'⟩ := inv.queued_state uid' hm
      have hne : uid' ≠ uid := by
        intro e
        rw [e, hu] at ht'
        rw [← Option.some.inj ht', hst] at hst'
        cases hst'
      exact ⟨t', by rw [lookupK_setK_ne _ _ _ _ hne]; exact ht', hst', hid'⟩
    · intro tid' uid' hl
      obtain ⟨t', ht', hid', hst'⟩ := inv.active_maps tid' uid' hl
      by_cases huid : uid' = uid
      · have htu : lookupK r.units uid = some t' := huid ▸ ht'
        have htt : t' = t := Option.some.inj (htu.symm.trans hu)
        refine ⟨{ t with ret := some t.start_routine, state := .DONE }, ?_, ?_, Or.inr rfl⟩
        · rw [huid, lookupK_setK_self, hu]; rfl
        · exact htt ▸ hid'
      · exact ⟨t', by rw [lookupK_setK_ne _ _ _ _ huid]; exact ht', hid', hst'⟩
    · intro uid' t' hl' hst'
      by_cases huid : uid' = uid
      · rw [huid, lookupK_setK_self, hu] at hl'
        have ht1 : t' = { t with ret := some t.start_routine, state := .DONE } :=
          (Option.some.inj hl').symm
        subst ht1
        obtain ⟨tid'', hid'', hl''⟩ := inv.live_active uid t hu (Or.inl hst)
        refine ⟨tid'', hid'', ?_⟩
        rw [huid]
        exact hl''
      · rw [lookupK_setK_ne _ _ _ _ huid] at hl'
        exact inv.live_active uid' t' hl' hst'
    · intro uid' t' hl' hst'
      by_cases huid : uid' = uid
      · rw [huid, lookupK_setK_self, hu] at hl'
        have ht1 : t' = { t with ret := some t.start_routine, state := .DONE } :=
          (Option.some.inj hl').symm
        subst ht1
        rfl
      · rw [lookupK_setK_ne _ _ _ _ huid] at hl'
        exact inv.done_ret uid' t' hl' hst'
    · intro uid' hm
      obtain ⟨t', ht', hst'⟩ := inv.returned_started uid' hm
      by_cases huid : uid' = uid
      · refine ⟨{ t with ret := some t.start_routine, state := .DONE }, ?_, ?_⟩
        · rw [huid, lookupK_setK_self, hu]; rfl
        · intro hs
          simp at hs
      · exact ⟨t', by rw [lookupK_setK_ne _ _ _ _ huid]; exact ht', hst'⟩
    · intro uid' t' hl' hst'
      by_cases huid : uid' = uid
      · rw [huid, lookupK_setK_self, hu] at hl'
        have ht1 : t' = { t with ret := some t.start_routine, state := .DONE } :=
          (Option.some.inj hl').symm
        subst ht1
        simp at hst'
      · rw [lookupK_setK_ne _ _ _ _ huid] at hl'
        exact inv.joined_returned uid' t' hl' hst'
  | submitReturn uid =>
    obtain ⟨t, hu, hnq, hnr, rfl⟩ := step_submitReturn_some h
    refine ⟨inv.fifo, inv.queued_nodup, inv.queued_state, inv.active_maps,
      inv.live_active, inv.done_ret, ?_, ?_, inv.issued_iff, inv.joined_issued⟩
    · intro uid' hm
      rcases List.mem_append.mp hm with hm | hm
      · exact inv.returned_started uid' hm
      · simp at hm
        subst hm
        exact ⟨t, hu, hnq⟩
    · intro uid' t' hl' hst'
      exact List.mem_append_left _ (inv.joined_returned uid' t' hl' hst')
  | join tid v =>
    obtain ⟨uid, t, ht, hu, hret, hretv, hst, rfl⟩ := step_join_some h
    refine ⟨inv.fifo, inv.queued_nodup, ?_, ?_, ?_, ?_, ?_, ?_, ?_, ?_⟩
    · intro uid' hm
      obtain ⟨t', ht', hst', hid'⟩ := inv.queued_state uid' hm
      have hne : uid' ≠ uid := by
        intro e
        rw [e, hu] at ht'
        rw [← Option.some.inj ht', hst] at hst'
        cases hst'
      exact ⟨t', by rw [lookupK_setK_ne _ _ _ _ hne]; exact ht', hst', hid'⟩
    · intro tid' uid' hl
      by_cases htid : tid' = tid
      · rw [htid, lookupK_eraseK_self] at hl
        cases hl
      · rw [lookupK_eraseK_ne _ _ _ htid] at hl
        obtain ⟨t', ht', hid', hst'⟩ := inv.active_maps tid' uid' hl
        have hne : uid' ≠ uid := by
          intro e
          rw [e, hu] at ht'
          have htt : t = t' := Option.some.inj ht'
          obtain ⟨tb, htb, hidb, -⟩ := inv.active_maps tid uid ht
          have htb' : tb = t := Option.some.inj (htb.symm.trans hu)
          rw [htb'] at hidb
          rw [← htt] at hid'
          rw [hid'] at hidb
          exact htid (Option.some.inj hidb)
        exact ⟨t', by rw [lookupK_setK_ne _ _ _ _ hne]; exact ht', hid', hst'⟩
    · intro uid' t' hl' hst'
      by_cases huid : uid' = uid
      · rw [huid, lookupK_setK_self, hu] at hl'
        have ht1 : t' = { t with state := .JOINED } := (Option.some.inj hl').symm
        subst ht1
        simp at hst'
      · rw [lookupK_setK_ne _ _ _ _ huid] at hl'
        obtain ⟨tid'', hid'', hl''⟩ := inv.live_active uid' t' hl' hst'
        have hne'' : tid'' ≠ tid := by
          intro e
          rw [e, ht] at hl''
          exact huid (Option.some.inj hl'').symm
        exact ⟨tid'', hid'', by rw [lookupK_eraseK_ne _ _ _ hne'']; exact hl''⟩
    · intro uid' t' hl' hst'
      by_cases huid : uid' = uid
      · rw [huid, lookupK_setK_self, hu] at hl'
        have ht1 : t' = { t with state := .JOINED } := (Option.some.inj hl').symm
        subst ht1
        simp at hst'
      · rw [lookupK_setK_ne _ _ _ _ huid] at hl'
        exact inv.done_ret uid' t' hl' hst'
    · intro uid' hm
      by_cases huid : uid' = uid
      · refine ⟨{ t with state := .JOINED }, ?_, ?_⟩
        · rw [huid, lookupK_setK_self, hu]; rfl
        · intro hs
          simp at hs
      · obtain ⟨t', ht', hst'⟩ := inv.returned_started uid' hm
        exact ⟨t', by rw [lookupK_setK_ne _ _ _ _ huid]; exact ht', hst'⟩
    · intro uid' t' hl' hst'
      by_cases huid : uid' = uid
      · rw [huid]
        exact hret
      · rw [lookupK_setK_ne _ _ _ _ huid] at hl'
        exact inv.joined_returned uid' t' hl' hst'
    · intro tid'
      by_cases htid : tid' = tid
      · constructor
        · intro hsome
          rw [htid, lookupK_eraseK_self] at hsome
          simp at hsome
        · intro hmem
          have hmem2 : tid' ∈ r.joinedIds ++ [tid] := by rw [htid]; simp
          exact absurd hmem2 hmem.2
      · have hiff := inv.issued_iff tid'
        constructor
        · intro hsome
          rw [lookupK_eraseK_ne _ _ _ htid] at hsome
          obtain ⟨h1, h2⟩ := hiff.mp hsome
          refine ⟨h1, ?_⟩
          intro hj
          rcases List.mem_append.mp hj with hx | hx
          · exact h2 hx
          · simp at hx; exact htid hx
        · intro hmem
          rw [lookupK_eraseK_ne _ _ _ htid]
          refine hiff.mpr ⟨hmem.1, ?_⟩
          intro hj
          exact hmem.2 (List.mem_append_left _ hj)
    · intro tid' hm
      rcases List.mem_append.mp hm with hm | hm
      · exact inv.joined_issued tid' hm
      · simp at hm
        rw [hm]
        exact ((inv.issued_iff tid).mp (by simp [ht])).1

/-- Every reachable registry state satisfies the invariant. -/
theorem Inv_reachable {r : Registry} (h : Reachable r) : Inv r := by
  induction h with
  | init => exact Inv_init
  | step _ hs ih => exact Inv_step ih hs

/-! ### The thread manager claims -/

/-- Claim C1: for every sequence of submit (CreateThread) calls, the N-th unit removed
and run by claim_and_run (StartThread) is the N-th unit submitted: in every
reachable registry state, under every interleaving of events, the claim history
is pointwise a prefix of the submission history. -/
theorem tm_C1_fifo_order {r : Registry} (h : Reachable r) :
    ∀ n uid, r.claimed.get? n = some uid → r.submitted.get? n = some uid := by
  intro n uid hn
  have inv := Inv_reachable h
  have hlen : n < r.claimed.length := by
    obtain ⟨hlt, -⟩ := List.get?_eq_some.mp hn
    exact hlt
  rw [inv.fifo, List.get?_eq_getElem?, List.getElem?_append_left hlen,
    ← List.get?_eq_getElem?]
  exact hn

/-- Claim C2: a submit (CreateThread) call can return only once its unit has been
claimed; at that moment the unit is in the active map keyed by the bound
identity, its state is at least RUNNING, and a join of that identity passes
the lookup, so join(returned identity) is a valid call. -/
theorem tm_C2_submit_return_live {r r' : Registry} {uid : Nat}
    (h : Reachable r) (hs : step r (.submitReturn uid) = some r') :
    ∃ tid t, lookupK r'.units uid = some t ∧ t.thread_id = some tid ∧
      lookupK r'.threads tid = some uid ∧ 1 ≤ t.state.rank ∧
      JoinThreadLookup r' tid = .ok uid := by
  have inv := Inv_reachable h
  obtain ⟨t, hu, hnq, hnr, rfl⟩ := step_submitReturn_some hs
  have hnj : t.state ≠ .JOINED := fun hj => hnr (inv.joined_returned uid t hu hj)
  have hrd : t.state = .RUNNING ∨ t.state = .DONE := by
    cases hts : t.state with
    | QUEUED => exact absurd hts hnq
    | RUNNING => exact Or.inl rfl
    | DONE => exact Or.inr rfl
    | JOINED => exact absurd hts hnj
  obtain ⟨tid, hid, hl⟩ := inv.live_active uid t hu hrd
  refine ⟨tid, t, hu, hid, hl, ?_, ?_⟩
  · rcases hrd with hx | hx <;> rw [hx] <;> simp [ThreadState.rank]
  · simp [JoinThreadLookup, hl]

/-- Claim C3: a completed join (JoinThread) on identity tid returns exactly the value
produced by the callable that was submitted and claimed under tid, including
failure-encoding values such as -1 — the value travels unmodified from the
submitted callable to the joiner. -/
theorem tm_C3_join_returns_value {r r' : Registry} {tid : Nat} {v : Int}
    (h : Reachable r) (hs : step r (.join tid v) = some r') :
    ∃ uid t, lookupK r.threads tid = some uid ∧ lookupK r.units uid = some t ∧
      v = t.start_routine := by
  have inv := Inv_reachable h
  obtain ⟨uid, t, ht, hu, hret, hretv, hst, rfl⟩ := step_join_some hs
  refine ⟨uid, t, ht, hu, ?_⟩
  have hdone := inv.done_ret uid t hu hst
  rw [hdone] at hretv
  exact (Option.some.inj hretv).symm

/-- Claim C4: the lookup phase of join (JoinThread) fails with NoSuchIdentity exactly
when the identity is absent from the active map, which in every reachable state
holds exactly for identities never issued or already reclaimed by a completed
join; the never-issued failure is a direct lookup, and after a join completes,
a second join of the same identity fails rather than returning a stale result. -/
theorem tm_C4_no_such_identity {r : Registry} (h : Reachable r) (tid : Nat) :
    (JoinThreadLookup r tid = .error .NoSuchIdentity ↔
      (tid ∉ r.issued ∨ tid ∈ r.joinedIds)) ∧
    (∀ v r', step r (.join tid v) = some r' →
      JoinThreadLookup r' tid = .error .NoSuchIdentity) := by
  have inv := Inv_reachable h
  constructor
  · cases hl : lookupK r.threads tid with
    | none =>
      have hv : JoinThreadLookup r tid = .error .NoSuchIdentity := by
        unfold JoinThreadLookup
        rw [hl]
      have hni : ¬(tid ∈ r.issued ∧ tid ∉ r.joinedIds) := by
        intro hc
        have hsome := (inv.issued_iff tid).mpr hc
        rw [hl] at hsome
        simp at hsome
      constructor
      · intro _
        by_cases hin : tid ∈ r.issued
        · refine Or.inr ?_
          by_contra hj
          exact hni ⟨hin, hj⟩
        · exact Or.inl hin
      · intro _
        exact hv
    | some uid =>
      have hv : JoinThreadLookup r tid = .ok uid := by
        unfold JoinThreadLookup
        rw [hl]
      have hsome := (inv.issued_iff tid).mp (by rw [hl]; rfl)
      constructor
      · intro he
        rw [hv] at he
        cases he
      · intro hmem
        rcases hmem with hmem | hmem
        · exact absurd hsome.1 hmem
        · exact absurd hmem hsome.2
  · intro v r' hs
    obtain ⟨uid, t, ht, hu, hret, hretv, hst, rfl⟩ := step_join_some hs
    simp [JoinThreadLookup, lookupK_eraseK_self]

/-- Claim C5: calling claim_and_run (StartThread) aborts the whole process exactly
when the pending queue is empty (in any reachable state); its result type has
no ordinary error outcome, so an empty queue is a fatal protocol violation and
never an error return. -/
theorem tm_C5_abort_on_empty {r : Registry} (h : Reachable r) (tid : Nat) :
    StartThread r tid = .abortProcess ↔ r.queued_threads = [] := by
  have inv := Inv_reachable h
  constructor
  · intro ha
    by_contra hne
    obtain ⟨uid, rest, hq⟩ := List.exists_cons_of_ne_nil hne
    obtain ⟨t, hu, hst, -⟩ := inv.queued_state uid
      (by rw [hq]; exact List.mem_cons_self _ _)
    have hup : UpdateThreadState { t with thread_id := some tid } .RUNNING =
        some { t with thread_id := some tid, state := .RUNNING } := by
      simp [UpdateThreadState, hst, ThreadState.rank]
    have hok : StartThread r tid = .ok { r with
        queued_threads := rest
        units := setK r.units uid { t with thread_id := some tid, state := .RUNNING }
        threads := (tid, uid) :: r.threads
        claimed := r.claimed ++ [uid]
        issued := r.issued ++ [tid] } := by
      simp only [StartThread, hq, hu, hup]
    rw [hok] at ha
    cases ha
  · intro hq
    simp only [StartThread, hq]

/-- Claim C6: for every Logical Thread, under every interleaving of the operations,
the state only ever moves strictly forward along QUEUED, RUNNING, DONE, JOINED:
every step leaves a unit unchanged or advances its state by exactly one stage;
and invoking Thread.Run on a unit that is not QUEUED (a second invocation of
the callable or an out-of-order transition) is the fatal assertion failure,
not a recoverable result. -/
theorem tm_C6_forward_only :
    (∀ (r r' : Registry) (e : Event) (uid : Nat) (t t' : Thread),
      step r e = some r' → lookupK r.units uid = some t →
      lookupK r'.units uid = some t' →
      t' = t ∨ t'.state.rank = t.state.rank + 1) ∧
    (∀ t : Thread, t.state ≠ .QUEUED → t.Run = none) := by
  constructor
  · intro r r' e uid t t' hs hu hu'
    cases e with
    | submit uid2 v =>
      obtain ⟨hu2, rfl⟩ := step_submit_some hs
      have hne : uid ≠ uid2 := by
        intro e
        rw [e, hu2] at hu
        cases hu
      left
      simp only [lookupK, if_neg hne] at hu'
      exact Option.some.inj (hu'.symm.trans hu)
    | claim tid =>
      obtain ⟨hi, uid2, rest, t2, hq, hu2, hst2, rfl⟩ := step_claim_some hs
      by_cases huid : uid = uid2
      · right
        have ht2 : t2 = t := by
          rw [huid, hu2] at hu
          exact Option.some.inj hu
        have hu'' : lookupK (setK r.units uid2
              { t2 with thread_id := some tid, state := .RUNNING }) uid2 =
            some { t2 with thread_id := some tid, state := .RUNNING } := by
          rw [lookupK_setK_self, hu2]; rfl
        rw [huid] at hu'
        have ht' : t' = { t2 with thread_id := some tid, state := .RUNNING } :=
          Option.some.inj (hu'.symm.trans hu'')
        rw [ht', ← ht2, hst2]
        rfl
      · left
        rw [lookupK_setK_ne _ _ _ _ huid] at hu'
        exact Option.some.inj (hu'.symm.trans hu)
    | finish tid =>
      obtain ⟨uid2, t2, ht2l, hu2, hst2, rfl⟩ := step_finish_some hs
      by_cases huid : uid = uid2
      · right
        have ht2 : t2 = t := by
          rw [huid, hu2] at hu
          exact Option.some.inj hu
        have hu'' : lookupK (setK r.units uid2
              { t2 with ret := some t2.start_routine, state := .DONE }) uid2 =
            some { t2 with ret := some t2.start_routine, state := .DONE } := by
          rw [lookupK_setK_self, hu2]; rfl
        rw [huid] at hu'
        have ht' : t' = { t2 with ret := some t2.start_routine, state := .DONE } :=
          Option.some.inj (hu'.symm.trans hu'')
        rw [ht', ← ht2, hst2]
        rfl
      · left
        rw [lookupK_setK_ne _ _ _ _ huid] at hu'
        exact Option.some.inj (hu'.symm.trans hu)
    | submitReturn uid2 =>
      obtain ⟨t2, hu2, hnq2, hnr2, rfl⟩ := step_submitReturn_some hs
      left
      exact Option.some.inj (hu'.symm.trans hu)
    | join tid v =>
      obtain ⟨uid2, t2, ht2l, hu2, hret2, hretv2, hst2, rfl⟩ := step_join_some hs
      by_cases huid : uid = uid2
      · right
        have ht2 : t2 = t := by
          rw [huid, hu2] at hu
          exact Option.some.inj hu
        have hu'' : lookupK (setK r.units uid2 { t2 with state := .JOINED }) uid2 =
            some { t2 with state := .JOINED } := by
          rw [lookupK_setK_self, hu2]; rfl
        rw [huid] at hu'
        have ht' : t' = { t2 with state := .JOINED } :=
          Option.some.inj (hu'.symm.trans hu'')
        rw [ht', ← ht2, hst2]
        rfl
      · left
        rw [lookupK_setK_ne _ _ _ _ huid] at hu'
        exact Option.some.inj (hu'.symm.trans hu)
  · intro t hne
    unfold Thread.Run
    have hupd : UpdateThreadState t .RUNNING = none := by
      unfold UpdateThreadState
      rw [if_neg]
      intro hc
      have h0 : t.state.rank = 0 := by
        simpa [ThreadState.rank] using hc
      exact hne ((rank_eq_zero_iff _).mp h0)
    rw [hupd]

/-! ### A concrete trace exercising the theorems

One callable producing -1 is submitted as unit 0, claimed by a vehicle with
identity 7, run to completion, returned from submit, and joined. -/

def reg1 : Registry := (step Registry.init (.submit 0 (-1))).getD Registry.init

def reg2 : Registry := (step reg1 (.claim 7)).getD reg1

def reg3 : Registry := (step reg2 (.finish 7)).getD reg2

def reg4 : Registry := (step reg3 (.submitReturn 0)).getD reg3

def reg5 : Registry := (step reg4 (.join 7 (-1))).getD reg4

theorem reg1_reachable : Reachable reg1 :=
  Reachable.step Reachable.init
    (show step Registry.init (.submit 0 (-1)) = some reg1 by decide)

theorem reg2_reachable : Reachable reg2 :=
  Reachable.step reg1_reachable (show step reg1 (.claim 7) = some reg2 by decide)

theorem reg3_reachable : Reachable reg3 :=
  Reachable.step reg2_reachable (show step reg2 (.finish 7) = some reg3 by decide)

theorem reg4_reachable : Reachable reg4 :=
  Reachable.step reg3_reachable
    (show step reg3 (.submitReturn 0) = some reg4 by decide)

theorem reg5_reachable : Reachable reg5 :=
  Reachable.step reg4_reachable
    (show step reg4 (.join 7 (-1)) = some reg5 by decide)

/-- Claim C1 witness: on the concrete trace, the first claimed unit is the first
submitted unit. -/
theorem tm_C1_fifo_order_witness : reg2.submitted.get? 0 = some 0 :=
  tm_C1_fifo_order reg2_reachable 0 0 (by decide)

/-- Claim C2 witness: when the concrete submit returns, unit 0 is in the active map
under identity 7, at least RUNNING, and joinable. -/
theorem tm_C2_submit_return_live_witness :
    ∃ tid t, lookupK reg4.units 0 = some t ∧ t.thread_id = some tid ∧
      lookupK reg4.threads tid = some 0 ∧ 1 ≤ t.state.rank ∧
      JoinThreadLookup reg4 tid = .ok 0 :=
  tm_C2_submit_return_live reg3_reachable
    (show step reg3 (.submitReturn 0) = some reg4 by decide)

/-- Claim C3 witness: the concrete join returns -1, the exact value of the submitted
callable (a failure-encoding value returned normally). -/
theorem tm_C3_join_returns_value_witness :
    ∃ uid t, lookupK reg4.threads 7 = some uid ∧
      lookupK reg4.units uid = some t ∧ (-1 : Int) = t.start_routine :=
  tm_C3_join_returns_value reg4_reachable
    (show step reg4 (.join 7 (-1)) = some reg5 by decide)

/-- Claim C4 witness: after the concrete join, a second join of identity 7 fails with
NoSuchIdentity, and a join of the never-issued identity 3 fails immediately. -/
theorem tm_C4_no_such_identity_witness :
    JoinThreadLookup reg5 7 = .error .NoSuchIdentity ∧
      JoinThreadLookup Registry.init 3 = .error .NoSuchIdentity :=
  ⟨(tm_C4_no_such_identity reg5_reachable 7).1.mpr (Or.inr (by decide)),
    (tm_C4_no_such_identity Reachable.init 3).1.mpr (Or.inl (by decide))⟩

/-- Claim C5 witness: StartThread on the initial (empty-queue) registry aborts. -/
theorem tm_C5_abort_on_empty_witness :
    StartThread Registry.init 5 = .abortProcess :=
  (tm_C5_abort_on_empty Reachable.init 5).mpr (by decide)

/-- Claim C6 witness: the concrete claim step advances unit 0 from QUEUED by exactly
one stage, and running an already-DONE thread is the fatal failure. -/
theorem tm_C6_forward_only_witness :
    (Thread.mk (-1) none (some 7) .RUNNING = Thread.mk (-1) none none .QUEUED ∨
      (Thread.mk (-1) none (some 7) .RUNNING).state.rank =
        (Thread.mk (-1) none none .QUEUED).state.rank + 1) ∧
    (Thread.mk 5 none (some 3) .DONE).Run = none :=
  ⟨tm_C6_forward_only.1 reg1 reg2 (.claim 7) 0 (Thread.mk (-1) none none .QUEUED)
      (Thread.mk (-1) none (some 7) .RUNNING) (by decide) (by decide) (by decide),
    tm_C6_forward_only.2 (Thread.mk 5 none (some 3) .DONE) (by decide)⟩

/-! ### Remote assertion generator enclave sealing utilities

Embedded from `asylo/identity/sgx/remote_assertion_generator_enclave_util.cc`.
The sealer, protobuf serialization and the DER key codec are external
collaborators and are modelled from the spec as faithful inverse pairs. -/

/-- Google canonical error codes used by the sealing utilities. -/
inductive GoogleError
  | INVALID_ARGUMENT
  | INTERNAL
  | UNIMPLEMENTED
deriving DecidableEq

/-- AsymmetricSigningKeyProto.KeyType. -/
inductive KeyType
  | UNKNOWN_KEY_TYPE
  | SIGNING_KEY
  | VERIFYING_KEY
deriving DecidableEq

/-- AsymmetricKeyEncoding. -/
inductive AsymmetricKeyEncoding
  | UNKNOWN_ASYMMETRIC_KEY_ENCODING
  | ASYMMETRIC_KEY_DER
  | ASYMMETRIC_KEY_PEM
deriving DecidableEq

/-- SignatureScheme. -/
inductive SignatureScheme
  | UNKNOWN_SIGNATURE_SCHEME
  | ECDSA_P256_SHA256
deriving DecidableEq

/-- AsymmetricSigningKeyProto: key bytes, encoding, key type and scheme. -/
structure AsymmetricSigningKeyProto where
  key : List Nat
  encoding : AsymmetricKeyEncoding
  key_type : KeyType
  signature_scheme : SignatureScheme
deriving DecidableEq

/-- Modelled from the spec: the cryptographic signing key is an opaque service
(EcdsaP256Sha256SigningKey); such a key is determined by its DER serialization,
with SerializeToDer and CreateFromDer mutually inverse. -/
structure EcdsaP256Sha256SigningKey where
  der : List Nat
deriving DecidableEq

/-- Modelled from the spec: DER serialization of the opaque key. -/
def EcdsaP256Sha256SigningKey.SerializeToDer
    (k : EcdsaP256Sha256SigningKey) : List Nat := k.der

/-- Modelled from the spec: key construction from DER bytes, inverse of
SerializeToDer. -/
def EcdsaP256Sha256SigningKey.CreateFromDer (serialized_key : List Nat) :
    Except GoogleError EcdsaP256Sha256SigningKey := .ok ⟨serialized_key⟩

/-- Modelled from the spec: the signature scheme of the opaque ECDSA key. -/
def EcdsaP256Sha256SigningKey.GetSignatureScheme
    (_ : EcdsaP256Sha256SigningKey) : SignatureScheme := .ECDSA_P256_SHA256

/-- SetAsymmetricSigningKeyProto: fill the proto with the serialized key, the
DER encoding constant, the key type and the signature scheme (the C++ mutates
an out-parameter; here the proto is returned). -/
def SetAsymmetricSigningKeyProto (serialized_key_der : List Nat)
    (key_type : KeyType) (signature_scheme : SignatureScheme) :
    AsymmetricSigningKeyProto :=
  { key := serialized_key_der
    encoding := .ASYMMETRIC_KEY_DER
    key_type := key_type
    signature_scheme := signature_scheme }

/-- The name/version/purpose triple of a SealedSecretHeader (the fields the
header check examines; the remaining header fields are sealer-internal). -/
structure SealedSecretHeader where
  secret_name : String
  secret_version : String
  secret_purpose : String
deriving DecidableEq

def kSecretName : String := "Assertion Generator Enclave Secret"

def kSecretVersion : String := "Assertion Generator Enclave Secret v0.1"

def kSecretPurpose : String :=
  "Assertion Generator Enclave Attestation Key and Certificates"

/-- CheckRemoteAssertionGeneratorEnclaveSecretHeader: secret name, version and
purpose must each equal the expected constant, else InvalidArgument. -/
def CheckRemoteAssertionGeneratorEnclaveSecretHeader
    (header : SealedSecretHeader) : Except GoogleError Unit :=
  if header.secret_name ≠ kSecretName then .error .INVALID_ARGUMENT
  else if header.secret_version ≠ kSecretVersion then .error .INVALID_ARGUMENT
  else if header.secret_purpose ≠ kSecretPurpose then .error .INVALID_ARGUMENT
  else .ok ()

/-- GetRemoteAssertionGeneratorEnclaveSecretHeader: the expected header. -/
def GetRemoteAssertionGeneratorEnclaveSecretHeader : SealedSecretHeader :=
  { secret_name := kSecretName
    secret_version := kSecretVersion
    secret_purpose := kSecretPurpose }

/-- A certificate as carried in a CertificateChain proto (opaque payload). -/
structure Certificate where
  format : Nat
  data : List Nat
deriving DecidableEq

/-- CertificateChain proto. -/
structure CertificateChain where
  certificates : List Certificate
deriving DecidableEq

/-- RemoteAssertionGeneratorEnclaveSecret proto: the attestation key. -/
structure RemoteAssertionGeneratorEnclaveSecret where
  attestation_key : AsymmetricSigningKeyProto
deriving DecidableEq

/-- RemoteAssertionGeneratorEnclaveSecretAad proto: the certificate chains. -/
structure RemoteAssertionGeneratorEnclaveSecretAad where
  certificate_chains : List CertificateChain
deriving DecidableEq

/-- Modelled from the spec: a sealed secret as produced by
SgxLocalSecretSealer::Seal.  Serialized protos are modelled by their message
values, serialization and parsing being mutually inverse; Seal binds the
serialized header, the additional authenticated data and the encrypted secret,
and Unseal recovers the secret of a blob produced by Seal. -/
structure SealedSecret where
  sealed_secret_header : SealedSecretHeader
  additional_authenticated_data : RemoteAssertionGeneratorEnclaveSecretAad
  secret : RemoteAssertionGeneratorEnclaveSecret
deriving DecidableEq

/-- GetAsymmetricSigningKeyProtoFromSigningKey: serialize the signing key to
DER and wrap it as a SIGNING_KEY proto with the signature scheme of the key.  DER
serialization of the opaque key is modelled as total. -/
def GetAsymmetricSigningKeyProtoFromSigningKey
    (signing_key : EcdsaP256Sha256SigningKey) :
    Except GoogleError AsymmetricSigningKeyProto :=
  .ok (SetAsymmetricSigningKeyProto signing_key.SerializeToDer .SIGNING_KEY
    signing_key.GetSignatureScheme)

/-- CreateSealedSecret.  The default header merge is modelled from the spec:
SetDefaultHeader touches only sealer-internal fields, so on the modelled
name/version/purpose fields the merged header is exactly `header`.  The
serialized enclave secret is never empty because the attestation key field is
always set; the additional authenticated data serializes to the empty string
exactly when the certificate chain list is empty, which the code rejects as an
Internal serialization failure before sealing. -/
def CreateSealedSecret (header : SealedSecretHeader)
    (certificate_chains : List CertificateChain)
    (attestation_key : EcdsaP256Sha256SigningKey) :
    Except GoogleError SealedSecret :=
  match GetAsymmetricSigningKeyProtoFromSigningKey attestation_key with
  | .error e => .error e
  | .ok key_proto =>
      let enclave_secret : RemoteAssertionGeneratorEnclaveSecret := ⟨key_proto⟩
      let aad : RemoteAssertionGeneratorEnclaveSecretAad := ⟨certificate_chains⟩
      if certificate_chains = [] then .error .INTERNAL
      else .ok ⟨header, aad, enclave_secret⟩

/-- ExtractAttestationKeyFromAsymmetricSigningKeyProto: a key type other than
SIGNING_KEY is InvalidArgument; a DER-encoded key is built with CreateFromDer;
a PEM-encoded key is Unimplemented; an unknown encoding is InvalidArgument. -/
def ExtractAttestationKeyFromAsymmetricSigningKeyProto
    (asymmetric_signing_key_proto : AsymmetricSigningKeyProto) :
    Except GoogleError EcdsaP256Sha256SigningKey :=
  if asymmetric_signing_key_proto.key_type ≠ .SIGNING_KEY then
    .error .INVALID_ARGUMENT
  else
    match asymmetric_signing_key_proto.encoding with
    | .ASYMMETRIC_KEY_DER =>
        EcdsaP256Sha256SigningKey.CreateFromDer asymmetric_signing_key_proto.key
    | .ASYMMETRIC_KEY_PEM => .error .UNIMPLEMENTED
    | .UNKNOWN_ASYMMETRIC_KEY_ENCODING => .error .INVALID_ARGUMENT

/-- ExtractAttestationKeyAndCertificateChainsFromSealedSecret: parse and check
the sealed secret header, unseal, parse the enclave secret and the additional
authenticated data (parsing is modelled as the inverse of serialization),
output the certificate chains and extract the attestation key.  The C++
returns the key and writes the chains through an out-parameter; here both are
returned as a pair. -/
def ExtractAttestationKeyAndCertificateChainsFromSealedSecret
    (sealed_secret : SealedSecret) :
    Except GoogleError (EcdsaP256Sha256SigningKey × List CertificateChain) :=
  match CheckRemoteAssertionGeneratorEnclaveSecretHeader
      sealed_secret.sealed_secret_header with
  | .error e => .error e
  | .ok _ =>
      let enclave_secret := sealed_secret.secret
      let aad := sealed_secret.additional_authenticated_data
      match ExtractAttestationKeyFromAsymmetricSigningKeyProto
          enclave_secret.attestation_key with
      | .error e => .error e
      | .ok key => .ok (key, aad.certificate_chains)

/-! ### The sealing claims -/

/-- Claim C7: sealing round-trip — for every attestation key and certificate chain
list, sealing them with CreateSealedSecret under a header H that passes the
secret header check, and then unsealing with
ExtractAttestationKeyAndCertificateChainsFromSealedSecret, recovers a key with
bytes identical to the original key and the identical certificate chain
list. -/
theorem seal_C7_round_trip (header : SealedSecretHeader)
    (chains : List CertificateChain) (key : EcdsaP256Sha256SigningKey)
    (s : SealedSecret)
    (hh : CheckRemoteAssertionGeneratorEnclaveSecretHeader header = .ok ())
    (hs : CreateSealedSecret header chains key = .ok s) :
    ExtractAttestationKeyAndCertificateChainsFromSealedSecret s =
      .ok (key, chains) := by
  simp only [CreateSealedSecret, GetAsymmetricSigningKeyProtoFromSigningKey] at hs
  by_cases hc : chains = []
  · rw [if_pos hc] at hs
    cases hs
  · rw [if_neg hc] at hs
    cases hs
    simp [ExtractAttestationKeyAndCertificateChainsFromSealedSecret, hh,
      ExtractAttestationKeyFromAsymmetricSigningKeyProto,
      SetAsymmetricSigningKeyProto, EcdsaP256Sha256SigningKey.CreateFromDer,
      EcdsaP256Sha256SigningKey.SerializeToDer]

/-- Claim C8: the sealed secret header check succeeds exactly when name, version and
purpose all equal the expected constants; any failing header yields
InvalidArgument; and unsealing a sealed secret whose header fails the check
fails with that error before any key material is produced. -/
theorem seal_C8_header_check (h : SealedSecretHeader) :
    (CheckRemoteAssertionGeneratorEnclaveSecretHeader h = .ok () ↔
      (h.secret_name = kSecretName ∧ h.secret_version = kSecretVersion ∧
        h.secret_purpose = kSecretPurpose)) ∧
    (CheckRemoteAssertionGeneratorEnclaveSecretHeader h = .ok () ∨
      CheckRemoteAssertionGeneratorEnclaveSecretHeader h =
        .error .INVALID_ARGUMENT) ∧
    (∀ (s : SealedSecret) (e : GoogleError), s.sealed_secret_header = h →
      CheckRemoteAssertionGeneratorEnclaveSecretHeader h = .error e →
      ExtractAttestationKeyAndCertificateChainsFromSealedSecret s = .error e) := by
  refine ⟨?_, ?_, ?_⟩
  · unfold CheckRemoteAssertionGeneratorEnclaveSecretHeader
    split_ifs with h1 h2 h3 <;> simp_all
  · unfold CheckRemoteAssertionGeneratorEnclaveSecretHeader
    split_ifs <;> simp
  · intro s e hsh hche
    simp only [ExtractAttestationKeyAndCertificateChainsFromSealedSecret,
      hsh, hche]

/-- Claim C9 counterexample: a proto whose encoding is not the DER encoding (here
the unknown encoding) with key type SIGNING_KEY fails with InvalidArgument and
not with Unimplemented, refuting the claim that every non-DER encoding fails
with Unimplemented. -/
theorem seal_C9_counterexample :
    (AsymmetricSigningKeyProto.mk [1] .UNKNOWN_ASYMMETRIC_KEY_ENCODING
        .SIGNING_KEY .ECDSA_P256_SHA256).encoding ≠ .ASYMMETRIC_KEY_DER ∧
    ExtractAttestationKeyFromAsymmetricSigningKeyProto
      (AsymmetricSigningKeyProto.mk [1] .UNKNOWN_ASYMMETRIC_KEY_ENCODING
        .SIGNING_KEY .ECDSA_P256_SHA256) = .error .INVALID_ARGUMENT ∧
    ExtractAttestationKeyFromAsymmetricSigningKeyProto
      (AsymmetricSigningKeyProto.mk [1] .UNKNOWN_ASYMMETRIC_KEY_ENCODING
        .SIGNING_KEY .ECDSA_P256_SHA256) ≠ .error .UNIMPLEMENTED := by
  refine ⟨by decide, rfl, ?_⟩
  simp [ExtractAttestationKeyFromAsymmetricSigningKeyProto]

/-- Claim C9 amended: for a proto with key type SIGNING_KEY, the PEM encoding fails
with the recoverable Unimplemented error, while the remaining non-DER
(unknown) encoding fails with InvalidArgument. -/
theorem seal_C9_amended (p : AsymmetricSigningKeyProto)
    (hk : p.key_type = .SIGNING_KEY) :
    (p.encoding = .ASYMMETRIC_KEY_PEM →
      ExtractAttestationKeyFromAsymmetricSigningKeyProto p =
        .error .UNIMPLEMENTED) ∧
    (p.encoding = .UNKNOWN_ASYMMETRIC_KEY_ENCODING →
      ExtractAttestationKeyFromAsymmetricSigningKeyProto p =
        .error .INVALID_ARGUMENT) := by
  constructor <;> intro he <;>
    simp [ExtractAttestationKeyFromAsymmetricSigningKeyProto, hk, he]

/-- Claim C9 amended witness: a concrete PEM-encoded signing key proto fails with
Unimplemented. -/
theorem seal_C9_amended_witness :
    ExtractAttestationKeyFromAsymmetricSigningKeyProto
      (AsymmetricSigningKeyProto.mk [1] .ASYMMETRIC_KEY_PEM .SIGNING_KEY
        .ECDSA_P256_SHA256) = .error .UNIMPLEMENTED :=
  (seal_C9_amended
    (AsymmetricSigningKeyProto.mk [1] .ASYMMETRIC_KEY_PEM .SIGNING_KEY
      .ECDSA_P256_SHA256) (by decide)).1 (by decide)

/-- Claim C10: a proto whose key type is not SIGNING_KEY fails with InvalidArgument
whatever its encoding (the encoding is never examined, so such a key never
reaches key construction); and every proto produced by
GetAsymmetricSigningKeyProtoFromSigningKey carries key type SIGNING_KEY and
the DER encoding, so it bypasses both error branches and is handed directly
to DER key construction. -/
theorem seal_C10_key_type_guard :
    (∀ p : AsymmetricSigningKeyProto, p.key_type ≠ .SIGNING_KEY →
      ExtractAttestationKeyFromAsymmetricSigningKeyProto p =
        .error .INVALID_ARGUMENT) ∧
    (∀ (k : EcdsaP256Sha256SigningKey) (p : AsymmetricSigningKeyProto),
      GetAsymmetricSigningKeyProtoFromSigningKey k = .ok p →
      p.key_type = .SIGNING_KEY ∧ p.encoding = .ASYMMETRIC_KEY_DER ∧
        ExtractAttestationKeyFromAsymmetricSigningKeyProto p =
          EcdsaP256Sha256SigningKey.CreateFromDer p.key) := by
  constructor
  · intro p hk
    simp [ExtractAttestationKeyFromAsymmetricSigningKeyProto, hk]
  · intro k p hp
    simp only [GetAsymmetricSigningKeyProtoFromSigningKey] at hp
    have hp' : p = SetAsymmetricSigningKeyProto k.SerializeToDer .SIGNING_KEY
        k.GetSignatureScheme := (Except.ok.inj hp).symm
    subst hp'
    refine ⟨rfl, rfl, ?_⟩
    simp [ExtractAttestationKeyFromAsymmetricSigningKeyProto,
      SetAsymmetricSigningKeyProto]

/-! ### Concrete sealing data for the witnesses -/

def wKey : EcdsaP256Sha256SigningKey := ⟨[1, 2, 3]⟩

def wChains : List CertificateChain := [⟨[⟨0, [4, 5]⟩]⟩]

def wSealed : SealedSecret :=
  ⟨GetRemoteAssertionGeneratorEnclaveSecretHeader, ⟨wChains⟩,
    ⟨SetAsymmetricSigningKeyProto wKey.SerializeToDer .SIGNING_KEY
      .ECDSA_P256_SHA256⟩⟩

def wBadHeader : SealedSecretHeader :=
  ⟨kSecretName, kSecretVersion, "some other purpose"⟩

def wBadSealed : SealedSecret :=
  ⟨wBadHeader, ⟨wChains⟩,
    ⟨SetAsymmetricSigningKeyProto wKey.SerializeToDer .SIGNING_KEY
      .ECDSA_P256_SHA256⟩⟩

/-- Claim C7 witness: a concrete key and chain list sealed under the expected header
unseal to exactly the original key and chains. -/
theorem seal_C7_round_trip_witness :
    ExtractAttestationKeyAndCertificateChainsFromSealedSecret wSealed =
      .ok (wKey, wChains) :=
  seal_C7_round_trip GetRemoteAssertionGeneratorEnclaveSecretHeader wChains
    wKey wSealed rfl rfl

/-- Claim C8 witness: unsealing a sealed secret whose header has a wrong purpose
fails with InvalidArgument before any key material is produced. -/
theorem seal_C8_header_check_witness :
    ExtractAttestationKeyAndCertificateChainsFromSealedSecret wBadSealed =
      .error .INVALID_ARGUMENT :=
  (seal_C8_header_check wBadHeader).2.2 wBadSealed .INVALID_ARGUMENT rfl rfl

/-- Claim C10 witness: a concrete VERIFYING_KEY proto fails with InvalidArgument
even though its encoding is DER, and the proto built from a concrete signing
key has key type SIGNING_KEY, the DER encoding, and goes to DER key
construction. -/
theorem seal_C10_key_type_guard_witness :
    ExtractAttestationKeyFromAsymmetricSigningKeyProto
      (AsymmetricSigningKeyProto.mk [9] .ASYMMETRIC_KEY_DER .VERIFYING_KEY
        .ECDSA_P256_SHA256) = .error .INVALID_ARGUMENT ∧
    ((SetAsymmetricSigningKeyProto wKey.SerializeToDer .SIGNING_KEY
        .ECDSA_P256_SHA256).key_type = .SIGNING_KEY ∧
      (SetAsymmetricSigningKeyProto wKey.SerializeToDer .SIGNING_KEY
        .ECDSA_P256_SHA256).encoding = .ASYMMETRIC_KEY_DER ∧
      ExtractAttestationKeyFromAsymmetricSigningKeyProto
        (SetAsymmetricSigningKeyProto wKey.SerializeToDer .SIGNING_KEY
          .ECDSA_P256_SHA256) =
        EcdsaP256Sha256SigningKey.CreateFromDer
          (SetAsymmetricSigningKeyProto wKey.SerializeToDer .SIGNING_KEY
            .ECDSA_P256_SHA256).key) :=
  ⟨seal_C10_key_type_guard.1
      (AsymmetricSigningKeyProto.mk [9] .ASYMMETRIC_KEY_DER .VERIFYING_KEY
        .ECDSA_P256_SHA256) (by decide),
    seal_C10_key_type_guard.2 wKey
      (SetAsymmetricSigningKeyProto wKey.SerializeToDer .SIGNING_KEY
        .ECDSA_P256_SHA256) rfl⟩

end Asylo
